import Mathlib

/-!
Verification of the CodeFormatManager core.

A shallow embedding of `CodeFormatManager.js` (the code-format
coordination engine): the provider registry, the selector/priority
resolution, the selection-to-range normalization, the on-type trigger
heuristic, the commit steps with their staleness check, and the
reactive plumbing of the save and per-buffer event pipelines.
-/

namespace CodeFormat

/-! ## Data model -/

/-- An Atom buffer position: zero-based `row` and `column`. -/
structure Point where
  row : Nat
  col : Nat
deriving DecidableEq

/-- An Atom `Range`: a `start` and an end position.  The end field is named
`stop` because `end` is a Lean keyword. -/
structure TextRange where
  start : Point
  stop : Point
deriving DecidableEq

/-- Atom `Range.isEmpty()`: the range is empty when its start equals its
end. -/
def TextRange.isEmpty (r : TextRange) : Bool :=
  r.start == r.stop

/-- A single text edit produced by a provider: replace `oldRange` with
`newText`. -/
structure TextEdit where
  oldRange : TextRange
  newText : String
deriving DecidableEq

/-- A `CodeFormatProvider`.  The three optional methods
(`formatCode`, `formatEntireFile`, `formatAtPosition`) are modelled by
their presence (`true` = the method is not `null`); their return values
are supplied as inputs to the dispatch/commit functions, since the
providers are external collaborators. -/
structure CodeFormatProvider where
  selector : String
  inclusionPriority : Int
  formatCode : Bool
  formatEntireFile : Bool
  formatAtPosition : Bool
deriving DecidableEq

/-- A buffer-change event (`atom$TextEditEvent`): `oldText` was replaced by
`newText`. -/
structure TextEditEvent where
  oldText : String
  newText : String
deriving DecidableEq

/-! ## Provider registry: `selector.split(/, ?/)` and resolution -/

/-- Helper for `splitSelector`: splits a character list at every `','`,
consuming one following space when present (the JS separator regex is a
comma followed by an optional space).  `acc` holds the current token
reversed. -/
def splitSelAux : List Char → List Char → List String
  | [], acc => [String.mk acc.reverse]
  | ',' :: ' ' :: rest, acc => String.mk acc.reverse :: splitSelAux rest []
  | ',' :: rest, acc => String.mk acc.reverse :: splitSelAux rest []
  | c :: rest, acc => splitSelAux rest (c :: acc)

/-- The JS `selector.split(/, ?/)` from `_getMatchingProvidersForScopeName`. -/
def splitSelector (s : String) : List String :=
  splitSelAux s.data []

/-- The filter predicate of `_getMatchingProvidersForScopeName`:
`provider.inclusionPriority > 0 && providerGrammars.indexOf(scopeName) !== -1`. -/
def providerMatchesScope (scopeName : String) (p : CodeFormatProvider) : Bool :=
  decide (p.inclusionPriority > 0) && (splitSelector p.selector).contains scopeName

/-- The ordering used by the registry sort: `a` may precede `b` when the
source comparator `(a, b) => a.inclusionPriority < b.inclusionPriority`
does not return a positive value for `(a, b)` (`true` coerces to `1`,
`false` to `0`), i.e. when `b`'s priority is at most `a`'s. -/
def priGE (a b : CodeFormatProvider) : Prop :=
  b.inclusionPriority ≤ a.inclusionPriority

instance : DecidableRel priGE := fun a b =>
  inferInstanceAs (Decidable (b.inclusionPriority ≤ a.inclusionPriority))

instance : IsTotal CodeFormatProvider priGE :=
  ⟨fun a b => by unfold priGE; exact le_total _ _⟩

instance : IsTrans CodeFormatProvider priGE :=
  ⟨fun _ _ _ hab hbc => by unfold priGE at *; exact le_trans hbc hab⟩

/-- The registry sort
`matchingProviders.sort((a, b) => a.inclusionPriority < b.inclusionPriority)`.
The source comparator returns a boolean, coerced by `Array.prototype.sort`
to `1`/`0`; a stable sort driven by it orders the list by descending
`inclusionPriority` with ties kept in original order, which is exactly a
stable insertion sort under `priGE`. -/
def jsSortByPriority (l : List CodeFormatProvider) : List CodeFormatProvider :=
  List.insertionSort priGE l

/-- The resolver `CodeFormatManager._getMatchingProvidersForScopeName`. -/
def getMatchingProvidersForScopeName (providers : List CodeFormatProvider)
    (scopeName : String) : List CodeFormatProvider :=
  jsSortByPriority (providers.filter (providerMatchesScope scopeName))

/-- Registration, `CodeFormatManager.addProvider`: pushes the provider onto the registry
list (no validation of the provider's capabilities happens here). -/
def addProvider (registry : List CodeFormatProvider) (p : CodeFormatProvider) :
    List CodeFormatProvider :=
  registry ++ [p]

/-- The disposer returned by `addProvider`: looks up the provider's first
index (`indexOf`, identity comparison) and, when found, calls
`splice(index)` — with no delete count, so JavaScript removes every
element from `index` through the end of the array. -/
def disposeProvider (registry : List CodeFormatProvider)
    (p : CodeFormatProvider) : List CodeFormatProvider :=
  match registry.indexOf? p with
  | none => registry
  | some i => registry.take i

/-! ## On-type trigger heuristic -/

/-- The host environment consulted by `isBracketPair`: whether the
`bracket-matcher` package is active, and its configured
`autocompleteCharacters` allowlist. -/
structure BracketMatcherEnv where
  active : Bool
  autocompleteCharacters : List String

/-- The source's `isBracketPair`: `false` when the `bracket-matcher` package is not
active, otherwise membership of the typed text in the
`bracket-matcher.autocompleteCharacters` allowlist. -/
def isBracketPair (env : BracketMatcherEnv) (typedText : String) : Bool :=
  if !env.active then
    false
  else
    env.autocompleteCharacters.contains typedText

/-- The source's `shouldFormatOnType`, with its branch structure kept. -/
def shouldFormatOnType (env : BracketMatcherEnv) (event : TextEditEvent) : Bool :=
  if event.oldText != "" then
    false
  else if event.oldText == "" && event.newText == "" then
    false
  else if decide (event.newText.length > 1) && !isBracketPair env event.newText then
    false
  else
    true

/-- The expression `event.newText[event.newText.length - 1]` of
`_formatCodeOnTypeInTextEditor`: the formatting trigger character is the
last character of the inserted text. -/
def triggerCharacter (event : TextEditEvent) : Option Char :=
  event.newText.data.getLast?

/-! ## Selection-to-range normalization (command path) -/

/-- The `formatRange` computation of `_formatCodeInTextEditor`: the whole
buffer for an empty selection; otherwise from column 0 of the selection's
first row to column 0 of the row after its last row, except that an end
already at column 0 is kept. -/
def computeFormatRange (bufferRange selectionRange : TextRange) : TextRange :=
  if selectionRange.isEmpty then
    bufferRange
  else
    ⟨⟨selectionRange.start.row, 0⟩,
      if selectionRange.stop.col = 0 then selectionRange.stop
      else ⟨selectionRange.stop.row + 1, 0⟩⟩

/-! ## Errors and the commit steps -/

/-- The failure modes of a formatting operation, one per `throw` site of
the source (plus the Rx `TimeoutError` of the save path). -/
inductive FormatErr
  | noProvider
  | staleContent
  | applyFailed
  | mustImplement
  | timeout
deriving DecidableEq

/-- The staleness check `CodeFormatManager._checkContentsAreSame`: throws when the buffer text
`after` (at commit time) differs from the snapshot `before`. -/
def checkContentsAreSame (before after : String) : Except FormatErr Unit :=
  if before ≠ after then .error .staleContent else .ok ()

/-- The `.map(edits => ...)` commit step of the `formatCode` branch of
`_formatCodeInTextEditor`: run the staleness check against the snapshot
`contents`, then apply the edits via `applyTextEditsToBuffer` (an external
collaborator, abstracted as `applyEdits`, returning `none` when it reports
failure and the resulting buffer text otherwise).  Returns the buffer text
after the step. -/
def commitFormatCode (applyEdits : String → List TextEdit → Option String)
    (contents currentText : String) (edits : List TextEdit) :
    Except FormatErr String :=
  match checkContentsAreSame contents currentText with
  | .error e => .error e
  | .ok _ =>
    match applyEdits currentText edits with
    | none => .error .applyFailed
    | some newText => .ok newText

/-- The `.map(({newCursor, formatted}) => ...)` commit step of the
`formatEntireFile` branch: staleness check, then
`buffer.setTextViaDiff(formatted)` replaces the whole text. -/
def commitFormatEntireFile (contents currentText formatted : String) :
    Except FormatErr String :=
  match checkContentsAreSame contents currentText with
  | .error e => .error e
  | .ok _ => .ok formatted

/-- The `.map(edits => ...)` commit step of
`_formatCodeOnTypeInTextEditor`: an empty edit list returns immediately
(before the staleness check); otherwise the staleness check runs and the
edits are applied. -/
def commitFormatOnType (applyEdits : String → List TextEdit → Option String)
    (contents currentText : String) (edits : List TextEdit) :
    Except FormatErr String :=
  if edits.length = 0 then
    .ok currentText
  else
    match checkContentsAreSame contents currentText with
    | .error e => .error e
    | .ok _ =>
      match applyEdits currentText edits with
      | none => .error .applyFailed
      | some newText => .ok newText

/-! ## Command-path dispatch -/

/-- Which provider operation `_formatCodeInTextEditor` invokes, with the
range it passes. -/
inductive CommandInvocation
  | formatCodeOp (range : TextRange)
  | formatEntireFileOp (range : TextRange)
deriving DecidableEq

/-- The range an invocation formats. -/
def CommandInvocation.range : CommandInvocation → TextRange
  | .formatCodeOp r => r
  | .formatEntireFileOp r => r

/-- The branch selection of `_formatCodeInTextEditor` once a provider is
chosen: `formatCode` when present and (the selection is non-empty or
`formatEntireFile` is absent); else `formatEntireFile` when present; else
the "must implement" error. -/
def chooseCommandInvocation (p : CodeFormatProvider)
    (selectionRangeEmpty : Bool) (formatRange : TextRange) :
    Except FormatErr CommandInvocation :=
  if p.formatCode && (!selectionRangeEmpty || !p.formatEntireFile) then
    .ok (.formatCodeOp formatRange)
  else if p.formatEntireFile then
    .ok (.formatEntireFileOp formatRange)
  else
    .error .mustImplement

/-- The synchronous prefix of `_formatCodeInTextEditor`: resolve and
capability-filter the providers, fail with the no-provider error when none
remain, compute the format range, take the first provider, and choose the
operation to invoke. -/
def formatCodeDispatch (providers : List CodeFormatProvider)
    (scopeName : String) (bufferRange selectionRange : TextRange) :
    Except FormatErr (CodeFormatProvider × CommandInvocation) :=
  let matchingProviders :=
    (getMatchingProvidersForScopeName providers scopeName).filter
      (fun p => p.formatCode || p.formatEntireFile)
  match matchingProviders with
  | [] => .error .noProvider
  | p :: _ =>
    let formatRange := computeFormatRange bufferRange selectionRange
    match chooseCommandInvocation p selectionRange.isEmpty formatRange with
    | .error e => .error e
    | .ok inv => .ok (p, inv)

/-! ## `_handleEvent`: error surfacing -/

/-- The observable outcome of one `_handleEvent` dispatch: the stream
either completes (carrying the list of error notifications raised on the
way) or terminates with an unhandled error. -/
inductive HandleOutcome
  | completes (notifications : List FormatErr)
  | streamError (e : FormatErr)
deriving DecidableEq

/-- The `command` branch of `_handleEvent`: a failure of
`_formatCodeInTextEditor` is caught, surfaced as an
`atom.notifications.addError` notification, and replaced by
`Observable.empty` — the event stream itself never errors. -/
def handleCommandResult (r : Except FormatErr (CodeFormatProvider × CommandInvocation)) :
    HandleOutcome :=
  match r with
  | .error e => .completes [e]
  | .ok _ => .completes []

/-! ## The save pipeline (`_handleEvent`, `save` branch)

The source chains `_formatCodeOnSaveInTextEditor(editor)
.timeout(SAVE_TIMEOUT).catch(err => Observable.empty())
.finally(() => editor.getBuffer().save())`.  The Rx operators are
external library collaborators; they are modelled over terminal
notifications with timestamps, per their documented semantics:
`timeout` re-emits an upstream terminal arriving within the budget and
raises a timeout error at the budget otherwise; `catch` with a handler
returning `Observable.empty` turns any error into completion; `finally`
runs its callback exactly once when the subscription tears down —
whether by completion, by error, or by external unsubscription. -/

/-- The `SAVE_TIMEOUT` constant: providers must not block save events longer than
this. -/
def SAVE_TIMEOUT : Nat := 2500

/-- How the formatting observable feeding the save pipeline behaves:
it succeeds at time `t`, fails at time `t`, or never terminates. -/
inductive FormatTermination
  | succeedsAt (t : Nat)
  | failsAt (t : Nat)
  | hangs
deriving DecidableEq

/-- A terminal notification of an observable, with the time it fires. -/
inductive RxTerminal
  | completeAt (t : Nat)
  | errorAt (e : FormatErr) (t : Nat)
deriving DecidableEq

/-- The time at which a terminal notification fires. -/
def RxTerminal.time : RxTerminal → Nat
  | .completeAt t => t
  | .errorAt _ t => t

/-- The terminal notification of `_formatCodeOnSaveInTextEditor`
(`none` when it hangs forever). -/
def saveSourceTerminal : FormatTermination → Option RxTerminal
  | .succeedsAt t => some (.completeAt t)
  | .failsAt t => some (.errorAt .staleContent t)
  | .hangs => none

/-- Rx `timeout(budget)`: passes a terminal that fires within the budget
through unchanged, and raises a timeout error at the budget when the
upstream has not terminated by then. -/
def timeoutOperator (budget : Nat) : Option RxTerminal → Option RxTerminal
  | some term => if term.time ≤ budget then some term else some (.errorAt .timeout budget)
  | none => some (.errorAt .timeout budget)

/-- Rx `catch` with a handler returning `Observable.empty`: every error
terminal becomes completion (at the same time). -/
def catchOperator : Option RxTerminal → Option RxTerminal
  | some (.errorAt _ t) => some (.completeAt t)
  | t => t

/-- The terminal notification of the composed save pipeline
`format.timeout(SAVE_TIMEOUT).catch(-> empty)`. -/
def savePipelineTerminal (f : FormatTermination) : Option RxTerminal :=
  catchOperator (timeoutOperator SAVE_TIMEOUT (saveSourceTerminal f))

/-- When the save pipeline's subscription tears down: at its terminal
notification, at an external unsubscription (`switchMap` supersession or
buffer destruction at time `u`), whichever is earlier — or never, if
neither occurs. -/
def saveTeardownTime (f : FormatTermination) (unsubAt : Option Nat) : Option Nat :=
  match savePipelineTerminal f, unsubAt with
  | some term, some u => some (min term.time u)
  | some term, none => some term.time
  | none, some u => some u
  | none, none => none

/-- Rx `finally`: the number of times `editor.getBuffer().save()` runs —
once at teardown if the subscription ever tears down, never otherwise. -/
def saveCallCount (f : FormatTermination) (unsubAt : Option Nat) : Nat :=
  match saveTeardownTime f unsubAt with
  | some _ => 1
  | none => 0

/-- Whether a pipeline terminal is a completion (as opposed to an error or
a hang). -/
def isCompleteTerminal : Option RxTerminal → Bool
  | some (.completeAt _) => true
  | _ => false

/-! ## Per-buffer arbitration (`_subscribeToEvents`)

The source groups the merged event stream by buffer and runs
`events.concat(Observable.of(null)).switchMap(...)`: `switchMap`
unsubscribes the still-pending inner processing of the previous event
before subscribing to the new one, and the `null` sentinel (emitted at
buffer destruction) switches to `Observable.empty`.  The model runs one
buffer's partition as a state machine over an arbitrary event sequence;
the asynchronous completion of trigger `i`'s processing is an explicit
`resolve i` event, and a result can commit only while its inner
subscription is still live (`i` active). -/

/-- One step of a buffer's partition: a new trigger reaching `switchMap`,
the asynchronous resolution of a trigger's processing, or the destruction
sentinel. -/
inductive ArbEvent
  | trigger (id : Nat)
  | resolve (id : Nat)
  | destroy
deriving DecidableEq

/-- The bookkeeping of one buffer's partition: the inner subscriptions
currently live, the operations abandoned by supersession or destruction,
and the operations whose results committed. -/
structure ArbState where
  active : List Nat
  abandoned : List Nat
  committed : List Nat
deriving DecidableEq

/-- The `switchMap` semantics: a trigger unsubscribes whatever was active and
starts its own processing; a resolution commits only when its
subscription is still live; destruction unsubscribes whatever was active
and starts nothing. -/
def arbStep (s : ArbState) : ArbEvent → ArbState
  | .trigger i => ⟨[i], s.active ++ s.abandoned, s.committed⟩
  | .resolve i =>
    if i ∈ s.active then ⟨s.active.erase i, s.abandoned, i :: s.committed⟩ else s
  | .destroy => ⟨[], s.active ++ s.abandoned, s.committed⟩

/-- Run a buffer's partition from the initial state (nothing active). -/
def arbRun (evs : List ArbEvent) : ArbState :=
  evs.foldl arbStep ⟨[], [], []⟩

/-- The trigger whose processing is still pending after the events so far:
the most recent trigger, unless it resolved or the buffer was destroyed
since. -/
def lastPendingStep (cur : Option Nat) : ArbEvent → Option Nat
  | .trigger i => some i
  | .resolve i => if cur = some i then none else cur
  | .destroy => none

/-- Fold of `lastPendingStep` over the event sequence. -/
def lastPendingTrigger (evs : List ArbEvent) : Option Nat :=
  evs.foldl lastPendingStep none

/-! ## Helper lemmas -/

/-- Inserting a provider into a list places it before every element of
equal priority already present, so filtering to one priority value
prepends it to the unchanged filtered tail. -/
theorem filter_orderedInsert_pri (q : Int) (x : CodeFormatProvider) :
    ∀ l : List CodeFormatProvider,
      (List.orderedInsert priGE x l).filter
          (fun p => decide (p.inclusionPriority = q)) =
        if x.inclusionPriority = q then
          x :: l.filter (fun p => decide (p.inclusionPriority = q))
        else l.filter (fun p => decide (p.inclusionPriority = q))
  | [] => by
    by_cases hx : x.inclusionPriority = q <;>
      simp [List.orderedInsert, List.filter, hx]
  | y :: ys => by
    by_cases hr : priGE x y
    · by_cases hx : x.inclusionPriority = q <;>
        simp [List.orderedInsert, if_pos hr, List.filter_cons, hx]
    · have hlt : x.inclusionPriority < y.inclusionPriority := by
        have := hr
        unfold priGE at this
        omega
      by_cases hx : x.inclusionPriority = q
      · have hy : ¬(y.inclusionPriority = q) := by omega
        simp [List.orderedInsert, if_neg hr, List.filter_cons, hy,
          filter_orderedInsert_pri q x ys, hx]
      · simp [List.orderedInsert, if_neg hr, List.filter_cons,
          filter_orderedInsert_pri q x ys, hx]

/-- Stability of the registry sort: restricted to any single priority
value, the sorted list agrees with the input list. -/
theorem filter_insertionSort_pri (q : Int) :
    ∀ l : List CodeFormatProvider,
      (List.insertionSort priGE l).filter
          (fun p => decide (p.inclusionPriority = q)) =
        l.filter (fun p => decide (p.inclusionPriority = q))
  | [] => rfl
  | x :: xs => by
    by_cases hx : x.inclusionPriority = q <;>
      simp [List.insertionSort, filter_orderedInsert_pri,
        filter_insertionSort_pri q xs, List.filter_cons, hx]

/-- If `chooseCommandInvocation` succeeds, the invocation carries exactly
the format range it was given. -/
theorem range_of_chooseCommandInvocation (p : CodeFormatProvider)
    (se : Bool) (fr : TextRange) (inv : CommandInvocation)
    (h : chooseCommandInvocation p se fr = .ok inv) :
    inv.range = fr := by
  unfold chooseCommandInvocation at h
  split at h
  · cases h; rfl
  · split at h
    · cases h; rfl
    · cases h

/-- The arbitration invariant: the live inner subscriptions are exactly
the still-pending trigger (if any). -/
theorem arbRun_active_invariant :
    ∀ (evs : List ArbEvent) (s : ArbState) (cur : Option Nat),
      s.active = cur.toList →
      (evs.foldl arbStep s).active = (evs.foldl lastPendingStep cur).toList
  | [], _, _, h => h
  | e :: rest, s, cur, h => by
    simp only [List.foldl_cons]
    apply arbRun_active_invariant rest
    cases e with
    | trigger i => simp [arbStep, lastPendingStep]
    | resolve i =>
      cases cur with
      | none =>
        have hs : s.active = [] := by simpa using h
        have hni : ¬(i ∈ s.active) := by simp [hs]
        simp [arbStep, lastPendingStep, hni, hs]
      | some j =>
        have hs : s.active = [j] := by simpa using h
        by_cases hij : i = j
        · subst hij
          simp [arbStep, lastPendingStep, hs]
        · have hji : ¬(j = i) := fun hj => hij hj.symm
          simp [arbStep, lastPendingStep, hs, hij, hji]
    | destroy => simp [arbStep, lastPendingStep]

/-! ## Claim theorems -/

/-- Claim C4: resolution returns exactly the providers whose
comma-separated selector contains the content type and whose priority is
greater than 0 (the result is a permutation of that filter), sorted
descending by `inclusionPriority` with ties preserving registration order
(restricting to any one priority value preserves the input order); in
particular, with two matching providers of priorities 5 and 1 registered
in either order, the priority-5 provider is resolved first. -/
theorem c4_resolve_filter_sort_stable (providers : List CodeFormatProvider)
    (scopeName : String) :
    (getMatchingProvidersForScopeName providers scopeName).Perm
        (providers.filter (providerMatchesScope scopeName))
    ∧ List.Pairwise (fun a b => b.inclusionPriority ≤ a.inclusionPriority)
        (getMatchingProvidersForScopeName providers scopeName)
    ∧ (∀ q : Int,
        (getMatchingProvidersForScopeName providers scopeName).filter
            (fun p => decide (p.inclusionPriority = q)) =
          (providers.filter (providerMatchesScope scopeName)).filter
            (fun p => decide (p.inclusionPriority = q)))
    ∧ (getMatchingProvidersForScopeName
          [⟨"source.test", 5, true, true, true⟩,
           ⟨"source.test", 1, true, true, true⟩]
          "source.test").head? = some ⟨"source.test", 5, true, true, true⟩
    ∧ (getMatchingProvidersForScopeName
          [⟨"source.test", 1, true, true, true⟩,
           ⟨"source.test", 5, true, true, true⟩]
          "source.test").head? = some ⟨"source.test", 5, true, true, true⟩ := by
  refine ⟨?_, ?_, ?_, by decide, by decide⟩
  · simpa [getMatchingProvidersForScopeName, jsSortByPriority] using
      List.perm_insertionSort priGE
        (providers.filter (providerMatchesScope scopeName))
  · have h := List.sorted_insertionSort priGE
      (providers.filter (providerMatchesScope scopeName))
    simp only [getMatchingProvidersForScopeName, jsSortByPriority]
    exact List.Pairwise.imp (fun hab => hab) h
  · intro q
    simp only [getMatchingProvidersForScopeName, jsSortByPriority]
    exact filter_insertionSort_pri q _

/-- Claim C5 (refuted by the code): on a registry holding provider A then
provider B, invoking A's disposer truncates the registry to the empty
list — `splice(index)` with no delete count removes A and every provider
registered after it, so B does not remain; disposing a provider that is
absent does leave the registry unchanged. -/
theorem c5_dispose_truncates_registry :
    disposeProvider
        (addProvider (addProvider [] ⟨"source.a", 1, true, false, false⟩)
          ⟨"source.b", 2, true, false, false⟩)
        ⟨"source.a", 1, true, false, false⟩ = []
    ∧ ([] : List CodeFormatProvider) ≠ [⟨"source.b", 2, true, false, false⟩]
    ∧ disposeProvider [⟨"source.b", 2, true, false, false⟩]
        ⟨"source.a", 1, true, false, false⟩ =
      [⟨"source.b", 2, true, false, false⟩] := by
  decide

/-- Claim C6: the on-type heuristic rejects any edit with non-empty old
text, rejects the degenerate empty-to-empty edit, rejects multi-character
insertions that are not recognized bracket pairs, and otherwise accepts,
the formatting trigger character being the last inserted character;
including the spec's concrete examples (with the bracket pair written as
a two-character brace string). -/
theorem c6_shouldFormatOnType (env : BracketMatcherEnv) (e : TextEditEvent) :
    (e.oldText ≠ "" → shouldFormatOnType env e = false)
    ∧ (e.oldText = "" → e.newText = "" → shouldFormatOnType env e = false)
    ∧ (e.oldText = "" → e.newText.length > 1 →
        isBracketPair env e.newText = false → shouldFormatOnType env e = false)
    ∧ (e.oldText = "" → e.newText ≠ "" →
        (e.newText.length ≤ 1 ∨ isBracketPair env e.newText = true) →
        shouldFormatOnType env e = true)
    ∧ shouldFormatOnType ⟨true, ["\x7b\x7d"]⟩ ⟨"", "x"⟩ = true
    ∧ shouldFormatOnType ⟨true, ["\x7b\x7d"]⟩ ⟨"a", ""⟩ = false
    ∧ shouldFormatOnType ⟨true, ["\x7b\x7d"]⟩ ⟨"", ""⟩ = false
    ∧ shouldFormatOnType ⟨true, ["\x7b\x7d"]⟩ ⟨"", "ab"⟩ = false
    ∧ shouldFormatOnType ⟨true, ["\x7b\x7d"]⟩ ⟨"", "\x7b\x7d"⟩ = true
    ∧ triggerCharacter ⟨"", "\x7b\x7d"⟩ = some '}' := by
  refine ⟨?_, ?_, ?_, ?_, by decide, by decide, by decide, by decide,
    by decide, by decide⟩
  · intro h
    simp [shouldFormatOnType, h]
  · intro h1 h2
    simp [shouldFormatOnType, h1, h2]
  · intro h1 h2 h3
    have hne : e.newText ≠ "" := by
      intro he
      rw [he] at h2
      simp at h2
    simp [shouldFormatOnType, h1, hne, h2, h3]
  · intro h1 h2 h3
    rcases h3 with h3 | h3
    · have hlen : ¬(e.newText.length > 1) := by omega
      simp [shouldFormatOnType, h1, h2, hlen]
    · simp [shouldFormatOnType, h1, h2, h3]

/-- Claim C6 witness: the heuristic at a concrete replacement edit. -/
theorem c6_shouldFormatOnType_witness :
    shouldFormatOnType ⟨true, ["\x7b\x7d"]⟩ ⟨"ab", "cd"⟩ = false :=
  (c6_shouldFormatOnType ⟨true, ["\x7b\x7d"]⟩ ⟨"ab", "cd"⟩).1 (by decide)

/-- Claim C7: an empty selection formats the whole buffer; a non-empty
selection is normalized to start at column 0 of its first row and end at
column 0 of the row after its last row, unless its end is already at
column 0, which is kept; including the spec's two concrete examples. -/
theorem c7_computeFormatRange (bufferRange sel : TextRange) :
    (sel.isEmpty = true → computeFormatRange bufferRange sel = bufferRange)
    ∧ (sel.isEmpty = false → sel.stop.col ≠ 0 →
        computeFormatRange bufferRange sel =
          ⟨⟨sel.start.row, 0⟩, ⟨sel.stop.row + 1, 0⟩⟩)
    ∧ (sel.isEmpty = false → sel.stop.col = 0 →
        computeFormatRange bufferRange sel = ⟨⟨sel.start.row, 0⟩, sel.stop⟩)
    ∧ computeFormatRange bufferRange ⟨⟨2, 5⟩, ⟨2, 10⟩⟩ = ⟨⟨2, 0⟩, ⟨3, 0⟩⟩
    ∧ computeFormatRange bufferRange ⟨⟨2, 5⟩, ⟨4, 0⟩⟩ = ⟨⟨2, 0⟩, ⟨4, 0⟩⟩ := by
  refine ⟨?_, ?_, ?_, rfl, rfl⟩
  · intro h
    simp [computeFormatRange, h]
  · intro h1 h2
    simp [computeFormatRange, h1, h2]
  · intro h1 h2
    simp [computeFormatRange, h1, h2]

/-- Claim C7 witness: a concrete empty selection formats the whole
buffer. -/
theorem c7_computeFormatRange_witness :
    computeFormatRange ⟨⟨0, 0⟩, ⟨9, 3⟩⟩ ⟨⟨1, 2⟩, ⟨1, 2⟩⟩ = ⟨⟨0, 0⟩, ⟨9, 3⟩⟩ :=
  (c7_computeFormatRange ⟨⟨0, 0⟩, ⟨9, 3⟩⟩ ⟨⟨1, 2⟩, ⟨1, 2⟩⟩).1 (by decide)

/-- Claim C10: on the type path an empty edit list completes as a no-op —
the buffer text is returned unchanged, no error is raised, and the
staleness check is skipped entirely (the statement holds for every
`currentText`, in particular one that differs from the snapshot). -/
theorem c10_empty_edits_noop
    (applyEdits : String → List TextEdit → Option String)
    (contents currentText : String) :
    commitFormatOnType applyEdits contents currentText [] =
      .ok currentText := rfl

/-- Claim C1 counterexample: a type-path operation whose provider returns
an empty edit list completes successfully (no error) even though the
buffer text at commit time differs from the snapshot — refuting the claim
that every such operation fails with an error. -/
theorem c1_counterexample :
    commitFormatOnType (fun _ _ => none) "a" "b" [] = .ok "b"
    ∧ ("b" : String) ≠ "a" :=
  ⟨rfl, by decide⟩

/-- Claim C1 (amended): whenever the buffer text at commit time differs
from the snapshot taken at initiation, the command commit (both the
range-edit and whole-file variants) fails with the stale-content error
before any edit is applied, and so does the type-path commit when its
edit list is non-empty; the one exception is the type path with an empty
edit list, which completes as a no-op with the buffer unchanged — in no
case is the stale result merged. -/
theorem c1_staleness (applyEdits : String → List TextEdit → Option String)
    (contents currentText formatted : String) (edits : List TextEdit)
    (h : currentText ≠ contents) :
    commitFormatCode applyEdits contents currentText edits =
        .error .staleContent
    ∧ commitFormatEntireFile contents currentText formatted =
        .error .staleContent
    ∧ (edits ≠ [] →
        commitFormatOnType applyEdits contents currentText edits =
          .error .staleContent)
    ∧ (edits = [] →
        commitFormatOnType applyEdits contents currentText edits =
          .ok currentText) := by
  have hchk : checkContentsAreSame contents currentText =
      .error .staleContent := by
    unfold checkContentsAreSame
    rw [if_pos (Ne.symm h)]
  refine ⟨?_, ?_, ?_, ?_⟩
  · simp [commitFormatCode, hchk]
  · simp [commitFormatEntireFile, hchk]
  · intro hne
    have hlen : ¬(edits.length = 0) := by
      simpa [List.length_eq_zero] using hne
    simp [commitFormatOnType, hlen, hchk]
  · intro he
    subst he
    rfl

/-- Claim C1 witness: the stale-content failure at a concrete input. -/
theorem c1_staleness_witness :
    commitFormatCode (fun _ _ => none) "a" "b" [] =
      Except.error FormatErr.staleContent :=
  (c1_staleness (fun _ _ => none) "a" "b" "c" [] (by decide)).1

/-- Claim C8: when no registered provider both matches the document's
content type and implements `formatCode` or `formatEntireFile`, the
command dispatch fails with the no-provider error (so nothing is ever
invoked or applied), and `_handleEvent` surfaces the failure as an error
notification while the event stream completes instead of erroring. -/
theorem c8_no_provider (providers : List CodeFormatProvider)
    (scopeName : String) (bufferRange selectionRange : TextRange)
    (h : ∀ p ∈ providers, ¬(providerMatchesScope scopeName p = true ∧
        (p.formatCode || p.formatEntireFile) = true)) :
    formatCodeDispatch providers scopeName bufferRange selectionRange =
        .error .noProvider
    ∧ handleCommandResult
        (formatCodeDispatch providers scopeName bufferRange selectionRange) =
      .completes [.noProvider] := by
  have hnil : (getMatchingProvidersForScopeName providers scopeName).filter
      (fun p => p.formatCode || p.formatEntireFile) = [] := by
    apply List.filter_eq_nil_iff.2
    intro x hx
    have hx2 : x ∈ providers.filter (providerMatchesScope scopeName) := by
      have hperm := List.perm_insertionSort priGE
        (providers.filter (providerMatchesScope scopeName))
      exact hperm.mem_iff.1
        (by simpa [getMatchingProvidersForScopeName, jsSortByPriority] using hx)
    obtain ⟨hxp, hxm⟩ := List.mem_filter.1 hx2
    intro hcap
    exact h x hxp ⟨hxm, hcap⟩
  have hd : formatCodeDispatch providers scopeName bufferRange
      selectionRange = .error .noProvider := by
    simp [formatCodeDispatch, hnil]
  exact ⟨hd, by rw [hd]; rfl⟩

/-- Claim C8 witness: a registry whose only provider matches a different
scope yields the no-provider error. -/
theorem c8_no_provider_witness :
    formatCodeDispatch [⟨"source.py", 1, true, true, true⟩] "source.js"
        ⟨⟨0, 0⟩, ⟨5, 0⟩⟩ ⟨⟨1, 1⟩, ⟨2, 2⟩⟩ =
      Except.error FormatErr.noProvider :=
  (c8_no_provider [⟨"source.py", 1, true, true, true⟩] "source.js"
    ⟨⟨0, 0⟩, ⟨5, 0⟩⟩ ⟨⟨1, 1⟩, ⟨2, 2⟩⟩ (by decide)).1

/-- Claim C9: a provider supporting range formatting is invoked through
`formatCode` whenever the selection is non-empty; with an empty selection
a provider supporting whole-file formatting is invoked through
`formatEntireFile`, and in every successful empty-selection dispatch the
invoked range is the entire buffer; a provider implementing neither
operation produces an error at dispatch time, while registration
unconditionally succeeds by appending to the registry. -/
theorem c9_dispatch_choice (p : CodeFormatProvider) (fr : TextRange)
    (providers : List CodeFormatProvider) (scopeName : String)
    (bufferRange selectionRange : TextRange) (q : CodeFormatProvider)
    (inv : CommandInvocation) (registry : List CodeFormatProvider) :
    (p.formatCode = true →
        chooseCommandInvocation p false fr = .ok (.formatCodeOp fr))
    ∧ (p.formatEntireFile = true →
        chooseCommandInvocation p true fr = .ok (.formatEntireFileOp fr))
    ∧ (selectionRange.isEmpty = true →
        formatCodeDispatch providers scopeName bufferRange selectionRange =
          .ok (q, inv) →
        inv.range = bufferRange)
    ∧ (∀ se : Bool, p.formatCode = false → p.formatEntireFile = false →
        chooseCommandInvocation p se fr = .error .mustImplement)
    ∧ addProvider registry p = registry ++ [p] := by
  refine ⟨?_, ?_, ?_, ?_, rfl⟩
  · intro h
    simp [chooseCommandInvocation, h]
  · intro h
    simp [chooseCommandInvocation, h]
  · intro hsel hok
    have hfr : computeFormatRange bufferRange selectionRange = bufferRange := by
      simp [computeFormatRange, hsel]
    simp only [formatCodeDispatch] at hok
    split at hok
    · simp at hok
    · split at hok
      · simp at hok
      · next heq =>
        simp only [Except.ok.injEq, Prod.mk.injEq] at hok
        obtain ⟨_, hinv⟩ := hok
        rw [← hinv, ← hfr]
        exact range_of_chooseCommandInvocation _ _ _ _ heq
  · intro se h1 h2
    simp [chooseCommandInvocation, h1, h2]

/-- Claim C9 witness: concrete dispatch choices. -/
theorem c9_dispatch_choice_witness :
    chooseCommandInvocation ⟨"source.js", 1, true, false, false⟩ false
        ⟨⟨0, 0⟩, ⟨1, 0⟩⟩ =
      Except.ok (CommandInvocation.formatCodeOp ⟨⟨0, 0⟩, ⟨1, 0⟩⟩) :=
  (c9_dispatch_choice ⟨"source.js", 1, true, false, false⟩ ⟨⟨0, 0⟩, ⟨1, 0⟩⟩
    [] "source.js" ⟨⟨0, 0⟩, ⟨1, 0⟩⟩ ⟨⟨0, 0⟩, ⟨0, 0⟩⟩
    ⟨"source.js", 1, true, false, false⟩
    (CommandInvocation.formatCodeOp ⟨⟨0, 0⟩, ⟨1, 0⟩⟩) []).1 (by decide)

/-- Claim C2: for every behavior of the save-path formatter (success or
failure at any time, or hanging forever) and every external
unsubscription time (including none), the underlying `buffer.save()` in
the `finally` runs exactly once, at pipeline teardown; the pipeline's
terminal is always a completion — the 2500 ms budget converts a hang into
a timeout error and the catch converts every error into completion — so
formatter failure or timeout never suppresses the save. -/
theorem c2_save_exactly_once (f : FormatTermination) (unsubAt : Option Nat) :
    saveCallCount f unsubAt = 1
    ∧ isCompleteTerminal (savePipelineTerminal f) = true
    ∧ SAVE_TIMEOUT = 2500 := by
  have hterm : ∃ t, savePipelineTerminal f = some (RxTerminal.completeAt t) := by
    cases f with
    | succeedsAt t =>
      by_cases hle : t ≤ SAVE_TIMEOUT
      · exact ⟨t, by simp [savePipelineTerminal, saveSourceTerminal,
          timeoutOperator, RxTerminal.time, hle, catchOperator]⟩
      · exact ⟨SAVE_TIMEOUT, by simp [savePipelineTerminal, saveSourceTerminal,
          timeoutOperator, RxTerminal.time, hle, catchOperator]⟩
    | failsAt t =>
      by_cases hle : t ≤ SAVE_TIMEOUT
      · exact ⟨t, by simp [savePipelineTerminal, saveSourceTerminal,
          timeoutOperator, RxTerminal.time, hle, catchOperator]⟩
      · exact ⟨SAVE_TIMEOUT, by simp [savePipelineTerminal, saveSourceTerminal,
          timeoutOperator, RxTerminal.time, hle, catchOperator]⟩
    | hangs =>
      exact ⟨SAVE_TIMEOUT, by simp [savePipelineTerminal, saveSourceTerminal,
        timeoutOperator, catchOperator]⟩
  obtain ⟨t, ht⟩ := hterm
  refine ⟨?_, ?_, rfl⟩
  · cases unsubAt <;> simp [saveCallCount, saveTeardownTime, ht]
  · simp [isCompleteTerminal, ht]

/-- Claim C3: over every per-document event sequence, at most one
operation is ever active; any active operation is the latest trigger not
yet resolved or cancelled, so a resolution can change the committed set
only when it belongs to the most recent trigger; the destruction sentinel
leaves nothing active and commits nothing (silent cancellation). -/
theorem c3_at_most_one_active (evs : List ArbEvent) :
    (arbRun evs).active.length ≤ 1
    ∧ (∀ i, i ∈ (arbRun evs).active → lastPendingTrigger evs = some i)
    ∧ (arbRun (evs ++ [ArbEvent.destroy])).active = []
    ∧ (arbRun (evs ++ [ArbEvent.destroy])).committed = (arbRun evs).committed
    ∧ (∀ i, (arbRun (evs ++ [ArbEvent.resolve i])).committed ≠
          (arbRun evs).committed →
        lastPendingTrigger evs = some i) := by
  have hact : (arbRun evs).active = (lastPendingTrigger evs).toList :=
    arbRun_active_invariant evs ⟨[], [], []⟩ none rfl
  have hmem : ∀ i, i ∈ (arbRun evs).active → lastPendingTrigger evs = some i := by
    intro i hi
    rw [hact] at hi
    cases hlt : lastPendingTrigger evs with
    | none =>
      rw [hlt] at hi
      simp at hi
    | some j =>
      rw [hlt] at hi
      simp at hi
      rw [hi]
  refine ⟨?_, hmem, ?_, ?_, ?_⟩
  · rw [hact]
    cases lastPendingTrigger evs <;> simp
  · simp [arbRun, List.foldl_append, arbStep]
  · simp [arbRun, List.foldl_append, arbStep]
  · intro i hne
    by_cases hi : i ∈ (arbRun evs).active
    · exact hmem i hi
    · exfalso
      apply hne
      have harb : arbRun (evs ++ [ArbEvent.resolve i]) =
          arbStep (arbRun evs) (ArbEvent.resolve i) := by
        simp [arbRun, List.foldl_append]
      rw [harb]
      simp [arbStep, hi]

/-- Claim C3 witness: after two triggers, the second is the only pending
operation. -/
theorem c3_at_most_one_active_witness :
    lastPendingTrigger [ArbEvent.trigger 0, ArbEvent.trigger 1] = some 1 :=
  ((c3_at_most_one_active [ArbEvent.trigger 0, ArbEvent.trigger 1]).2.1) 1
    (by decide)

end CodeFormat
